import Mathlib

/-!
Verification of the focused database relationship mapper
(`focused_mapper.py`, class `FocusedDatabaseMapper`).

The mapper state and its operations are embedded shallowly:

* Python dicts become association lists `List (String × α)` (first match wins,
  as `dict` lookup does, and all dicts here have unique keys);
* Python sets become duplicate-free lists with insertion-ordered `insertSet`;
* the foreign-key tuples `(table, col, col)` stored in `relationships` /
  `reverse_relationships` become `Edge := String × String × String`;
* the BFS `while` loop of `find_path` becomes a fuel-indexed recursion
  (`bfsLoop`); `searchFuel` over-approximates the number of loop iterations
  of the Python loop, and every property proved about the loop holds for
  every fuel value;
* file I/O and timestamps are irrelevant to the verified claims and are
  abstracted: the path cache and the mapping cache are carried as fields of
  the state, and `timestamp` fields are fixed to `""`.
-/

/-- A column descriptor, the dict `{'name': ..., 'type': ...}` built by
`map_focused_relationships`. -/
structure Column where
  name : String
  type : String
deriving DecidableEq

/-- A stored relationship tuple.  In `relationships` it is
`(target_table, source_column, target_column)`; in `reverse_relationships`
it is `(source_table, target_column, source_column)`. -/
abbrev Edge := String × String × String

/-- One value of the path-cache dict, as written by `_save_to_cache`. -/
structure PathCacheEntry where
  paths : List (List String)
  timestamp : String
  source : String
  target : String
  max_depth : Nat
deriving DecidableEq

/-- The mapping-cache record, as written by `_save_mapping_cache`. -/
structure MappingCacheEntry where
  patterns : List String
  db_info : String
  timestamp : String
  table_columns : List (String × List Column)
  relationships : List (String × List Edge)
  reverse_relationships : List (String × List Edge)
  all_tables : List String
  total_tables : Nat
  total_fks : Nat
deriving DecidableEq

/-- The mutable state of a `FocusedDatabaseMapper` instance.  `db_type` and
`database_name` model `self.db_type` and
`self.connection_params.get('database', 'unknown')`; `mapping_cache = none`
models an empty (falsy) `self.mapping_cache` dict. -/
structure MapperState where
  db_type : String
  database_name : String
  patterns : List String
  relationships : List (String × List Edge)
  reverse_relationships : List (String × List Edge)
  table_columns : List (String × List Column)
  all_tables : List String
  path_cache : List (String × PathCacheEntry)
  mapping_cache : Option MappingCacheEntry
deriving DecidableEq

/-- `m.get(k, [])` on a `defaultdict(list)` (no default-entry insertion). -/
def getD {α : Type} (m : List (String × List α)) (k : String) : List α :=
  (m.lookup k).getD []

/-- `m[k] = v` on a dict: replace the value at an existing key, else append. -/
def setKey {α : Type} (m : List (String × α)) (k : String) (v : α) :
    List (String × α) :=
  match m with
  | [] => [(k, v)]
  | kv :: rest => if kv.1 = k then (k, v) :: rest else kv :: setKey rest k v

/-- `m[k].append(v)` on a `defaultdict(list)`: extends the list at `k`,
creating the entry when absent. -/
def dAppend {α : Type} (m : List (String × List α)) (k : String) (v : α) :
    List (String × List α) :=
  match m with
  | [] => [(k, [v])]
  | kv :: rest =>
    if kv.1 = k then (kv.1, kv.2 ++ [v]) :: rest else kv :: dAppend rest k v

/-- `s.add(x)` on a Python set modelled as a duplicate-free list. -/
def insertSet (l : List String) (x : String) : List String :=
  if x ∈ l then l else l ++ [x]

/-- Lowercasing, `str.lower()` (ASCII case folding via `Char.toLower`). -/
def lowerStr (s : String) : String := ⟨s.data.map Char.toLower⟩

/-- Substring test on char lists, the `pattern in table` operator. -/
def listInfix (p : List Char) : List Char → Bool
  | [] => p.isEmpty
  | c :: rest => List.isPrefixOf p (c :: rest) || listInfix p rest

/-- Lexicographic string order used to model Python `sorted`. -/
def charListLe : List Char → List Char → Bool
  | [], _ => true
  | _ :: _, [] => false
  | c :: cs, d :: ds =>
    if c.toNat < d.toNat then true
    else if d.toNat < c.toNat then false
    else charListLe cs ds

def strLe (a b : String) : Bool := charListLe a.data b.data

def insertSorted (x : String) : List String → List String
  | [] => [x]
  | y :: ys => if strLe x y then x :: y :: ys else y :: insertSorted x ys

/-- `sorted(l)` for a list of strings (insertion sort). -/
def sortStrings (l : List String) : List String := l.foldr insertSorted []

/-- `f"{self.db_type}_{self.connection_params.get('database', 'unknown')}"`. -/
def dbFingerprint (s : MapperState) : String :=
  s.db_type ++ "_" ++ s.database_name

/-- `_get_cache_key`: `f"{source}→{target}:{max_depth}"`. -/
def get_cache_key (source target : String) (max_depth : Nat) : String :=
  source ++ "→" ++ target ++ ":" ++ toString max_depth

/-- `_get_from_cache`: `self.path_cache.get(cache_key, None)`. -/
def get_from_cache (pc : List (String × PathCacheEntry))
    (source target : String) (max_depth : Nat) : Option PathCacheEntry :=
  pc.lookup (get_cache_key source target max_depth)

/-- `_save_to_cache` (the JSON file write is not modelled; the timestamp is
abstracted to `""`). -/
def save_to_cache (s : MapperState) (source target : String) (max_depth : Nat)
    (paths : List (List String)) : MapperState :=
  { s with path_cache :=
      (setKey s.path_cache (get_cache_key source target max_depth)
        ({ paths := paths, timestamp := "", source := source, target := target,
           max_depth := max_depth } : PathCacheEntry)) }

/-- The label `f"--{src_col}-->{tgt_col}-->"` for a forward relationship
tuple `(next_table, src_col, tgt_col)`. -/
def forwardLabel (e : Edge) : String :=
  "--" ++ e.2.1 ++ "-->" ++ e.2.2 ++ "-->"

/-- The label `f"<--{tgt_col}<--{src_col}--"` for a reverse relationship
tuple `(next_table, src_col, tgt_col)`. -/
def reverseLabel (e : Edge) : String :=
  "<--" ++ e.2.2 ++ "<--" ++ e.2.1 ++ "--"

/-- One `for next_table, src_col, tgt_col in edges:` loop body of
`find_path`: completed paths are appended to `paths`; other candidates are
enqueued when unvisited and `len(path) < max_depth`. -/
def expandEdges (target : String) (max_depth : Nat) (lbl : Edge → String)
    (path : List String) (visited : List String) :
    List Edge → List (String × List String) → List (List String) →
    List (String × List String) × List (List String)
  | [], queue, paths => (queue, paths)
  | e :: es, queue, paths =>
    if e.1 = target then
      expandEdges target max_depth lbl path visited es queue
        (paths ++ [path ++ [lbl e, e.1]])
    else if e.1 ∉ visited ∧ path.length < max_depth then
      expandEdges target max_depth lbl path visited es
        (queue ++ [(e.1, path ++ [lbl e, e.1])]) paths
    else
      expandEdges target max_depth lbl path visited es queue paths

/-- Expansion of one dequeued table: forward relationships first, then
reverse relationships, exactly as the two `for` loops of `find_path`.
`visited1` is the visited set after `visited.add(current_table)`. -/
def bfsStep (rel rev : List (String × List Edge)) (target : String)
    (max_depth : Nat) (current : String) (path : List String)
    (visited1 : List String) (rest : List (String × List String))
    (paths : List (List String)) :
    List (String × List String) × List (List String) :=
  expandEdges target max_depth reverseLabel path visited1 (getD rev current)
    (expandEdges target max_depth forwardLabel path visited1
      (getD rel current) rest paths).1
    (expandEdges target max_depth forwardLabel path visited1
      (getD rel current) rest paths).2

/-- The `while queue and len(paths) < 10:` loop of `find_path`, indexed by
fuel.  A dequeued entry is dropped when `len(path) > max_depth` or when its
table was already visited; otherwise the table is marked visited and
expanded. -/
def bfsLoop (rel rev : List (String × List Edge)) (target : String)
    (max_depth : Nat) :
    Nat → List (String × List String) → List String → List (List String) →
    List (List String)
  | 0, _, _, paths => paths
  | _ + 1, [], _, paths => paths
  | fuel + 1, (current, path) :: rest, visited, paths =>
    if 10 ≤ paths.length then paths
    else if max_depth < path.length then
      bfsLoop rel rev target max_depth fuel rest visited paths
    else if current ∈ visited then
      bfsLoop rel rev target max_depth fuel rest visited paths
    else
      bfsLoop rel rev target max_depth fuel
        (bfsStep rel rev target max_depth current path (current :: visited)
          rest paths).1
        (current :: visited)
        (bfsStep rel rev target max_depth current path (current :: visited)
          rest paths).2

/-- Total number of stored relationship tuples in an adjacency map. -/
def edgeCount (m : List (String × List Edge)) : Nat :=
  (m.map (fun kv => kv.2.length)).sum

/-- An over-approximation of the number of iterations the Python `while`
loop can perform: every enqueued table other than the source occurs in some
relationship tuple, each table is expanded at most once, and an expansion
enqueues at most one entry per stored tuple. -/
def searchFuel (s : MapperState) : Nat :=
  (edgeCount s.relationships + edgeCount s.reverse_relationships + 2) *
    (edgeCount s.relationships + edgeCount s.reverse_relationships + 2)

/-- The BFS of `find_path` on a cache miss: the work queue starts with
`(source_table, [source_table])`, visited and result lists start empty. -/
def runSearch (s : MapperState) (source_table target_table : String)
    (max_depth : Nat) : List (List String) :=
  bfsLoop s.relationships s.reverse_relationships target_table max_depth
    (searchFuel s) [(source_table, [source_table])] [] []

/-- `find_path`: scope guard, trivial `source == target` answer, path-cache
lookup, then the BFS; on a cache miss the computed result is written to the
path cache (`_save_to_cache`) and returned. -/
def find_path (s : MapperState) (source_table target_table : String)
    (max_depth : Nat) : MapperState × List (List String) :=
  if (s.table_columns.lookup source_table).isNone ∨
      (s.table_columns.lookup target_table).isNone then (s, [])
  else if source_table = target_table then (s, [[source_table]])
  else
    match get_from_cache s.path_cache source_table target_table max_depth with
    | some entry => (s, entry.paths)
    | none =>
      (save_to_cache s source_table target_table max_depth
        (runSearch s source_table target_table max_depth),
       runSearch s source_table target_table max_depth)

/-- `_load_from_mapping_cache`: succeeds iff the cache dict is non-empty,
`set(self.patterns).issubset(set(cached_patterns))`, and the database
fingerprint matches; on success the four graph fields are overwritten from
the cache. -/
def load_from_mapping_cache (s : MapperState) : MapperState × Bool :=
  match s.mapping_cache with
  | none => (s, false)
  | some mc =>
    if ¬ (∀ p ∈ s.patterns, p ∈ mc.patterns) ∨ mc.db_info ≠ dbFingerprint s
    then (s, false)
    else
      ({ s with table_columns := mc.table_columns,
                relationships := mc.relationships,
                reverse_relationships := mc.reverse_relationships,
                all_tables := mc.all_tables }, true)

/-- `_save_mapping_cache`: the record written to the mapping-cache file
(timestamp abstracted to `""`). -/
def save_mapping_cache (s : MapperState) : MappingCacheEntry :=
  { patterns := sortStrings s.patterns,
    db_info := dbFingerprint s,
    timestamp := "",
    table_columns := s.table_columns,
    relationships := s.relationships,
    reverse_relationships := s.reverse_relationships,
    all_tables := s.all_tables,
    total_tables := s.table_columns.length,
    total_fks := edgeCount s.relationships }

/-- `pattern.lower() in table.lower()` for any of the mapper's patterns. -/
def patternMatches (patterns : List String) (table : String) : Bool :=
  patterns.any (fun p => listInfix (lowerStr p).data (lowerStr table).data)

/-- One row of the FK-expansion query of `get_relevant_tables`
(`ccu.table_name` may be NULL, hence the `Option`). -/
abbrev ExpandRow := String × Option String

/-- One row of the FK query of `map_focused_relationships`:
`(source_table, source_column, target_table, target_column)`. -/
structure FkRow where
  source_table : String
  source_column : String
  target_table : String
  target_column : String
deriving DecidableEq

/-- One row of the column query: `(table_name, column_name, data_type)`. -/
structure ColRow where
  table_name : String
  column_name : String
  data_type : String
deriving DecidableEq

/-- The database as seen by one mapping run.  A `false`/`none` field models
the corresponding connection attempt or query raising an exception at that
point of the run. -/
structure DbData where
  connect1_ok : Bool
  tables_list : Option (List String)
  expand_rows : Option (List ExpandRow)
  connect2_ok : Bool
  fk_rows : Option (List FkRow)
  col_rows : Option (List ColRow)
deriving DecidableEq

/-- `get_relevant_tables`: pattern filtering, then one FK-expansion pass;
assigns `self.all_tables` just before returning.  `Except.error ()` models
an exception propagating out (the mapper state is unchanged in that case,
since `self.all_tables` is only assigned after the last query succeeds). -/
def get_relevant_tables (s : MapperState) (db : DbData) :
    Except Unit (MapperState × List String) :=
  if ¬ db.connect1_ok then .error ()
  else
    match db.tables_list with
    | none => .error ()
    | some allNames =>
      let seed := (allNames.filter (patternMatches s.patterns)).foldl
        insertSet []
      match db.expand_rows with
      | none => .error ()
      | some rows =>
        let expanded := rows.foldl (fun acc row =>
          let acc1 := insertSet acc row.1
          match row.2 with
          | some t => insertSet acc1 t
          | none => acc1) seed
        .ok ({ s with all_tables := expanded }, expanded)

/-- Appends one FK row to both adjacency indexes, the body of the
`for row in cursor.fetchall():` loop (the `if source_table and target_table`
truthiness test is the non-emptiness of both names). -/
def addFkRow (s : MapperState) (row : FkRow) : MapperState :=
  if row.source_table ≠ "" ∧ row.target_table ≠ "" then
    { s with
      relationships := dAppend s.relationships row.source_table
        (row.target_table, row.source_column, row.target_column),
      reverse_relationships := dAppend s.reverse_relationships
        row.target_table
        (row.source_table, row.target_column, row.source_column) }
  else s

/-- Appends one column row to `table_columns`, creating the table's list
when absent. -/
def addColRow (s : MapperState) (row : ColRow) : MapperState :=
  { s with table_columns :=
      (dAppend s.table_columns row.table_name
        ({ name := row.column_name, type := row.data_type } : Column)) }

/-- `map_focused_relationships`: cache attempt, relevant-table discovery,
second connection, FK mapping, column mapping.  Any exception is caught by
the outer `try`/`except` and turned into `false`, leaving the state as
already mutated at that point.  The final `_save_mapping_cache` writes only
the cache file, not the in-memory state. -/
def map_focused_relationships (s : MapperState) (db : DbData) :
    MapperState × Bool :=
  if (load_from_mapping_cache s).2 then ((load_from_mapping_cache s).1, true)
  else
    match get_relevant_tables s db with
    | .error _ => (s, false)
    | .ok (s1, relevant) =>
      if relevant.isEmpty then (s1, false)
      else if ¬ db.connect2_ok then (s1, false)
      else
        match db.fk_rows with
        | none => (s1, false)
        | some rows =>
          match db.col_rows with
          | none => (rows.foldl addFkRow s1, false)
          | some crows =>
            (crows.foldl addColRow (rows.foldl addFkRow s1), true)

/-- The table elements of a path list: a path alternates
`table, edge label, table, edge label, …, table`, so the tables are the
elements at even positions. -/
def tableNodes : List String → List String
  | [] => []
  | [t] => [t]
  | t :: _ :: rest => t :: tableNodes rest

/-! ### Association-list and sorting lemmas -/

theorem lookup_setKey {α : Type} (m : List (String × α)) (k : String) (v : α) :
    (setKey m k v).lookup k = some v := by
  induction m with
  | nil => simp [setKey, List.lookup]
  | cons kv rest ih =>
    rw [setKey]
    split
    · simp [List.lookup]
    · rename_i hne
      have hbeq : (k == kv.1) = false := by
        simp
        exact fun h => hne h.symm
      rw [List.lookup, hbeq]
      exact ih

theorem lookup_some_mem {α : Type} {m : List (String × α)} {k : String} {v : α}
    (h : m.lookup k = some v) : (k, v) ∈ m := by
  induction m with
  | nil => simp [List.lookup] at h
  | cons kv rest ih =>
    obtain ⟨k1, v1⟩ := kv
    rw [List.lookup] at h
    by_cases hk : k = k1
    · subst hk
      simp at h
      subst h
      exact List.mem_cons_self _ _
    · have hbeq : (k == k1) = false := by simp [hk]
      rw [hbeq] at h
      exact List.mem_cons_of_mem _ (ih h)

theorem lookup_eq_none_of_not_mem_keys {α : Type} {m : List (String × α)}
    {k : String} (h : k ∉ m.map Prod.fst) : m.lookup k = none := by
  induction m with
  | nil => simp [List.lookup]
  | cons kv rest ih =>
    rw [List.map] at h
    have h1 : k ≠ kv.1 := fun he => h (he ▸ List.mem_cons_self _ _)
    have h2 : k ∉ rest.map Prod.fst := fun hm => h (List.mem_cons_of_mem _ hm)
    obtain ⟨k1, v1⟩ := kv
    have hbeq : (k == k1) = false := by simpa using h1
    rw [List.lookup, hbeq]
    exact ih h2

theorem mem_insertSorted (a x : String) :
    ∀ l : List String, a ∈ insertSorted x l ↔ a = x ∨ a ∈ l
  | [] => by simp [insertSorted]
  | y :: ys => by
    rw [insertSorted]
    split
    · simp [List.mem_cons]
    · simp only [List.mem_cons, mem_insertSorted a x ys]
      tauto

theorem mem_sortStrings (a : String) (l : List String) :
    a ∈ sortStrings l ↔ a ∈ l := by
  induction l with
  | nil => simp [sortStrings]
  | cons x xs ih =>
    simp only [sortStrings, List.foldr] at ih ⊢
    rw [mem_insertSorted, ih, List.mem_cons]

/-! ### The table elements of a path -/

theorem tableNodes_length :
    ∀ p : List String, (tableNodes p).length = (p.length + 1) / 2
  | [] => by simp [tableNodes]
  | [_] => by simp [tableNodes]
  | _ :: _ :: rest => by
    have h := tableNodes_length rest
    simp only [tableNodes, List.length_cons]
    omega

theorem tableNodes_append_pair (a b : String) :
    ∀ p : List String, p.length % 2 = 1 →
      tableNodes (p ++ [a, b]) = tableNodes p ++ [b]
  | [], h => by simp at h
  | [t], _ => rfl
  | t :: u :: rest, h => by
    have hr : rest.length % 2 = 1 := by
      have : (t :: u :: rest).length = rest.length + 2 := by simp
      omega
    show t :: tableNodes (rest ++ [a, b]) = t :: (tableNodes rest ++ [b])
    rw [tableNodes_append_pair a b rest hr]

/-! ### Generic preservation through one edge-expansion loop -/

theorem expandEdges_forall (Pq : String × List String → Prop)
    (Pp : List String → Prop) (target : String) (max_depth : Nat)
    (lbl : Edge → String) (path : List String) (visited : List String)
    (hp : ∀ e : Edge, e.1 = target → Pp (path ++ [lbl e, e.1]))
    (hq : ∀ e : Edge, e.1 ≠ target → e.1 ∉ visited →
      path.length < max_depth → Pq (e.1, path ++ [lbl e, e.1]))
    (es : List Edge) :
    ∀ (queue : List (String × List String)) (paths : List (List String)),
      (∀ x ∈ queue, Pq x) → (∀ q ∈ paths, Pp q) →
      (∀ x ∈ (expandEdges target max_depth lbl path visited es queue paths).1,
        Pq x) ∧
      (∀ q ∈ (expandEdges target max_depth lbl path visited es queue paths).2,
        Pp q) := by
  induction es with
  | nil =>
    intro queue paths hQ hP
    exact ⟨hQ, hP⟩
  | cons e es ih =>
    intro queue paths hQ hP
    rw [expandEdges]
    by_cases h1 : e.1 = target
    · rw [if_pos h1]
      refine ih queue (paths ++ [path ++ [lbl e, e.1]]) hQ ?_
      intro q hqmem
      rcases List.mem_append.1 hqmem with h | h
      · exact hP q h
      · rw [List.mem_singleton.1 h]
        exact hp e h1
    · rw [if_neg h1]
      by_cases h2 : e.1 ∉ visited ∧ path.length < max_depth
      · rw [if_pos h2]
        refine ih (queue ++ [(e.1, path ++ [lbl e, e.1])]) paths ?_ hP
        intro x hx
        rcases List.mem_append.1 hx with h | h
        · exact hQ x h
        · rw [List.mem_singleton.1 h]
          exact hq e h1 h2.1 h2.2
      · rw [if_neg h2]
        exact ih queue paths hQ hP

theorem expandEdges_paths_length (target : String) (max_depth : Nat)
    (lbl : Edge → String) (path : List String) (visited : List String)
    (es : List Edge) :
    ∀ (queue : List (String × List String)) (paths : List (List String)),
      (expandEdges target max_depth lbl path visited es queue paths).2.length ≤
        paths.length + es.length := by
  induction es with
  | nil =>
    intro queue paths
    simp [expandEdges]
  | cons e es ih =>
    intro queue paths
    rw [expandEdges]
    by_cases h1 : e.1 = target
    · rw [if_pos h1]
      have := ih queue (paths ++ [path ++ [lbl e, e.1]])
      simp at this ⊢
      omega
    · rw [if_neg h1]
      by_cases h2 : e.1 ∉ visited ∧ path.length < max_depth
      · rw [if_pos h2]
        have := ih (queue ++ [(e.1, path ++ [lbl e, e.1])]) paths
        simp only [List.length_cons]
        omega
      · rw [if_neg h2]
        have := ih queue paths
        simp only [List.length_cons]
        omega

theorem bfsStep_forall (Pq : String × List String → Prop)
    (Pp : List String → Prop) (rel rev : List (String × List Edge))
    (target : String) (max_depth : Nat) (current : String)
    (path : List String) (visited1 : List String)
    (hp : ∀ (l n : String), n = target → Pp (path ++ [l, n]))
    (hq : ∀ (l n : String), n ≠ target → n ∉ visited1 →
      path.length < max_depth → Pq (n, path ++ [l, n]))
    (rest : List (String × List String)) (paths : List (List String))
    (hQ : ∀ x ∈ rest, Pq x) (hP : ∀ q ∈ paths, Pp q) :
    (∀ x ∈ (bfsStep rel rev target max_depth current path visited1 rest
      paths).1, Pq x) ∧
    (∀ q ∈ (bfsStep rel rev target max_depth current path visited1 rest
      paths).2, Pp q) := by
  have hfwd := expandEdges_forall Pq Pp target max_depth forwardLabel path
    visited1
    (fun e he => hp (forwardLabel e) e.1 he)
    (fun e hne hnv hlt => hq (forwardLabel e) e.1 hne hnv hlt)
    (getD rel current) rest paths hQ hP
  exact expandEdges_forall Pq Pp target max_depth reverseLabel path visited1
    (fun e he => hp (reverseLabel e) e.1 he)
    (fun e hne hnv hlt => hq (reverseLabel e) e.1 hne hnv hlt)
    (getD rev current) _ _ hfwd.1 hfwd.2

theorem bfsStep_paths_length (rel rev : List (String × List Edge))
    (target : String) (max_depth : Nat) (current : String)
    (path : List String) (visited1 : List String)
    (rest : List (String × List String)) (paths : List (List String)) :
    (bfsStep rel rev target max_depth current path visited1 rest
      paths).2.length ≤
      paths.length + (getD rel current).length + (getD rev current).length := by
  have h1 := expandEdges_paths_length target max_depth forwardLabel path
    visited1 (getD rel current) rest paths
  have h2 := expandEdges_paths_length target max_depth reverseLabel path
    visited1 (getD rev current)
    (expandEdges target max_depth forwardLabel path visited1
      (getD rel current) rest paths).1
    (expandEdges target max_depth forwardLabel path visited1
      (getD rel current) rest paths).2
  rw [bfsStep]
  omega

/-- Generic invariant preservation for the whole BFS loop.  `Pq` is an
invariant of queue entries, indexed by the current visited set; `Pp` is a
property of completed paths.  `Pq` must be monotone in the visited set, and
one expansion step must turn a dequeued entry satisfying `Pq` into completed
paths satisfying `Pp` and queue entries satisfying `Pq` again. -/
theorem bfsLoop_forall {rel rev : List (String × List Edge)}
    {target : String} {max_depth : Nat}
    (Pq : List String → String × List String → Prop)
    (Pp : List String → Prop)
    (hmono : ∀ v c x, Pq v x → Pq (c :: v) x)
    (hstepP : ∀ v current path, Pq v (current, path) → current ∉ v →
      path.length ≤ max_depth → ∀ (l n : String), n = target →
      Pp (path ++ [l, n]))
    (hstepQ : ∀ v current path, Pq v (current, path) → current ∉ v →
      path.length ≤ max_depth → ∀ (l n : String), n ≠ target →
      n ∉ current :: v → path.length < max_depth →
      Pq (current :: v) (n, path ++ [l, n])) :
    ∀ (fuel : Nat) (queue : List (String × List String))
      (visited : List String) (paths : List (List String)),
      (∀ x ∈ queue, Pq visited x) → (∀ q ∈ paths, Pp q) →
      ∀ p ∈ bfsLoop rel rev target max_depth fuel queue visited paths, Pp p := by
  intro fuel
  induction fuel with
  | zero =>
    intro queue visited paths _ hP
    exact fun p hp => hP p hp
  | succ n ih =>
    intro queue visited paths hQ hP
    match queue with
    | [] => exact fun p hp => hP p hp
    | (current, path) :: rest =>
      rw [bfsLoop]
      by_cases hcap : 10 ≤ paths.length
      · rw [if_pos hcap]
        exact hP
      rw [if_neg hcap]
      by_cases hdepth : max_depth < path.length
      · rw [if_pos hdepth]
        exact ih rest visited paths
          (fun x hx => hQ x (List.mem_cons_of_mem _ hx)) hP
      rw [if_neg hdepth]
      by_cases hvis : current ∈ visited
      · rw [if_pos hvis]
        exact ih rest visited paths
          (fun x hx => hQ x (List.mem_cons_of_mem _ hx)) hP
      rw [if_neg hvis]
      have hle : path.length ≤ max_depth := Nat.le_of_not_lt hdepth
      have hcur : Pq visited (current, path) := hQ _ (List.mem_cons_self _ _)
      have hstep := bfsStep_forall (Pq (current :: visited)) Pp rel rev
        target max_depth current path (current :: visited)
        (fun l m hm => hstepP visited current path hcur hvis hle l m hm)
        (fun l m hm hnv hlt =>
          hstepQ visited current path hcur hvis hle l m hm hnv hlt)
        rest paths
        (fun x hx => hmono _ _ _ (hQ x (List.mem_cons_of_mem _ hx))) hP
      exact ih _ _ _ hstep.1 hstep.2

/-! ### The degree bound used by the result-count theorem -/

/-- Number of stored relationship tuples (forward plus reverse) at a table:
how many candidate paths one dequeue of that table can produce. -/
def degOf (rel rev : List (String × List Edge)) (t : String) : Nat :=
  (getD rel t).length + (getD rev t).length

/-- The largest `degOf` over all keyed tables (tables without an entry have
degree zero). -/
def degreeBound (rel rev : List (String × List Edge)) : Nat :=
  ((rel ++ rev).map (fun kv => degOf rel rev kv.1)).foldr max 0

theorem le_foldr_max {a : Nat} {l : List Nat} (h : a ∈ l) :
    a ≤ l.foldr max 0 := by
  induction l with
  | nil => cases h
  | cons x xs ih =>
    rcases List.mem_cons.1 h with h | h
    · rw [h]
      exact le_max_left _ _
    · exact le_trans (ih h) (le_max_right _ _)

theorem degOf_le_degreeBound (rel rev : List (String × List Edge))
    (t : String) : degOf rel rev t ≤ degreeBound rel rev := by
  cases hl : List.lookup t rel with
  | some v =>
    have hmem : (t, v) ∈ rel := lookup_some_mem hl
    exact le_foldr_max (List.mem_map.2
      ⟨(t, v), List.mem_append.2 (Or.inl hmem), rfl⟩)
  | none =>
    cases hr : List.lookup t rev with
    | some v =>
      have hmem : (t, v) ∈ rev := lookup_some_mem hr
      exact le_foldr_max (List.mem_map.2
        ⟨(t, v), List.mem_append.2 (Or.inr hmem), rfl⟩)
    | none =>
      simp [degOf, getD, hl, hr]

theorem bfsLoop_length {rel rev : List (String × List Edge)}
    {target : String} {max_depth : Nat} :
    ∀ (fuel : Nat) (queue : List (String × List String))
      (visited : List String) (paths : List (List String)),
      paths.length ≤ 9 + degreeBound rel rev →
      (bfsLoop rel rev target max_depth fuel queue visited paths).length ≤
        9 + degreeBound rel rev := by
  intro fuel
  induction fuel with
  | zero =>
    intro queue visited paths h
    exact h
  | succ n ih =>
    intro queue visited paths h
    match queue with
    | [] => exact h
    | (current, path) :: rest =>
      rw [bfsLoop]
      by_cases hcap : 10 ≤ paths.length
      · rw [if_pos hcap]
        exact h
      rw [if_neg hcap]
      by_cases hdepth : max_depth < path.length
      · rw [if_pos hdepth]
        exact ih rest visited paths h
      rw [if_neg hdepth]
      by_cases hvis : current ∈ visited
      · rw [if_pos hvis]
        exact ih rest visited paths h
      rw [if_neg hvis]
      refine ih _ _ _ ?_
      have h1 := bfsStep_paths_length rel rev target max_depth current path
        (current :: visited) rest paths
      have h2 := degOf_le_degreeBound rel rev current
      have h3 : paths.length ≤ 9 := Nat.le_of_not_lt hcap
      unfold degOf at h2
      omega

/-! ### Concrete fixtures used by witnesses and counterexamples -/

/-- A two-table scope with one foreign key `A.x → B.y`. -/
def egPath : MapperState :=
  { db_type := "postgresql", database_name := "dev", patterns := ["user"],
    relationships := [("A", [("B", "x", "y")])],
    reverse_relationships := [],
    table_columns := [("A", []), ("B", [])],
    all_tables := ["A", "B"], path_cache := [], mapping_cache := none }

/-- A two-table scope with eleven parallel foreign keys from `A` to `B`. -/
def egParallel : MapperState :=
  { db_type := "postgresql", database_name := "dev", patterns := ["user"],
    relationships := [("A",
      [("B", "c1", "d"), ("B", "c2", "d"), ("B", "c3", "d"), ("B", "c4", "d"),
       ("B", "c5", "d"), ("B", "c6", "d"), ("B", "c7", "d"), ("B", "c8", "d"),
       ("B", "c9", "d"), ("B", "c10", "d"), ("B", "c11", "d")])],
    reverse_relationships := [],
    table_columns := [("A", []), ("B", [])],
    all_tables := ["A", "B"], path_cache := [], mapping_cache := none }

/-! ### C1: depth bound of returned paths -/

/--
C1 (amended).  On a path-cache miss, every path returned by
`find_path(A, B, d)` contains at most `⌊(d + 1) / 2⌋ + 1` table-nodes.
The code's depth tests compare `d` with `len(path)`, the length of the
alternating table/label list, so a dequeued path with `t` table-nodes is
expanded when `2t - 1 ≤ d` and may complete with `t + 1` table-nodes; the
claimed bound of `d` table-nodes fails (see the counterexample at `d = 1`).
-/
theorem C1_path_depth_bound (s : MapperState) (source target : String)
    (d : Nat) (p : List String)
    (hmiss : get_from_cache s.path_cache source target d = none)
    (hp : p ∈ (find_path s source target d).2) :
    (tableNodes p).length ≤ (d + 1) / 2 + 1 := by
  rw [find_path] at hp
  split at hp
  · simp at hp
  split at hp
  · rw [List.mem_singleton.1 hp]
    have h1 : (tableNodes [source]).length = 1 := by simp [tableNodes]
    omega
  split at hp
  · rename_i entry heq
    rw [hmiss] at heq
    cases heq
  · simp only [] at hp
    have hlen : p.length ≤ d + 2 := by
      refine bfsLoop_forall (fun _ x => x.2.length ≤ d + 1)
        (fun q => q.length ≤ d + 2)
        (fun _ _ _ h => h)
        (fun v current path _ _ hle l n _ => by
          simp only [List.length_append, List.length_cons, List.length_nil]
          omega)
        (fun v current path _ _ _ l n _ _ hlt => by
          simp only [List.length_append, List.length_cons, List.length_nil]
          omega)
        (searchFuel s) [(source, [source])] [] [] ?_ ?_ p hp
      · intro x hx
        rw [List.mem_singleton.1 hx]
        simp only [List.length_cons, List.length_nil]
        omega
      · intro q hq
        cases hq
    have := tableNodes_length p
    omega

/--
C1 counterexample.  With both tables in scope, one foreign key `A → B`,
an empty path cache and `max_depth = 1`, `find_path` returns a path with
two table-nodes, contradicting the claimed bound of at most one.
-/
theorem C1_counterexample :
    ((egPath.table_columns.lookup "A").isSome ∧
      (egPath.table_columns.lookup "B").isSome) ∧
    egPath.path_cache = [] ∧
    (find_path egPath "A" "B" 1).2 = [["A", "--x-->y-->", "B"]] ∧
    ¬ (tableNodes ["A", "--x-->y-->", "B"]).length ≤ 1 := by decide

/-- Witness for `C1_path_depth_bound` at the fixture `egPath`. -/
theorem C1_path_depth_bound_witness :
    get_from_cache egPath.path_cache "A" "B" 1 = none ∧
    ["A", "--x-->y-->", "B"] ∈ (find_path egPath "A" "B" 1).2 ∧
    (tableNodes ["A", "--x-->y-->", "B"]).length ≤ (1 + 1) / 2 + 1 :=
  ⟨by decide, by decide,
    C1_path_depth_bound egPath "A" "B" 1 ["A", "--x-->y-->", "B"]
      (by decide) (by decide)⟩

/-! ### C2: cap on the number of returned paths -/

/--
C2 (amended).  On a path-cache miss, `find_path` returns at most
`9 + D` paths, where `D` (`degreeBound`) is the largest number of forward
plus reverse relationship tuples stored at a single table.  The `10`-path
cap is checked only between dequeues (`while queue and len(paths) < 10`),
and one dequeued table appends one completed path per incident tuple, so
the claimed hard cap of 10 paths fails (see the counterexample).
-/
theorem C2_result_count_bound (s : MapperState) (source target : String)
    (d : Nat)
    (hmiss : get_from_cache s.path_cache source target d = none) :
    (find_path s source target d).2.length ≤
      9 + degreeBound s.relationships s.reverse_relationships := by
  rw [find_path]
  split
  · simp
  split
  · simp only [List.length_singleton]
    omega
  split
  · rename_i entry heq
    rw [hmiss] at heq
    cases heq
  · simp only []
    exact bfsLoop_length (searchFuel s) [(source, [source])] [] []
      (by simp)

/--
C2 counterexample.  With eleven parallel foreign keys from `A` to `B`,
both tables in scope and an empty path cache, `find_path(A, B, 5)` returns
eleven paths, more than the claimed cap of 10.
-/
theorem C2_counterexample :
    egParallel.path_cache = [] ∧
    (find_path egParallel "A" "B" 5).2.length = 11 ∧ ¬ (11 : Nat) ≤ 10 := by
  decide

/-- Witness for `C2_result_count_bound` at the fixture `egParallel`
(there `degreeBound` evaluates to 11). -/
theorem C2_result_count_bound_witness :
    get_from_cache egParallel.path_cache "A" "B" 5 = none ∧
    (find_path egParallel "A" "B" 5).2.length ≤
      9 + degreeBound egParallel.relationships
        egParallel.reverse_relationships :=
  ⟨by decide, C2_result_count_bound egParallel "A" "B" 5 (by decide)⟩

/-! ### C7: no table repeats within a single returned path -/

/-- The queue-entry invariant of the BFS: the path's table-nodes are
duplicate-free, never contain the target, the path list has odd length
(it alternates table, label, …, table), and all table-nodes except the
entry's own table have already been visited. -/
def PathInv (target : String) (v : List String)
    (x : String × List String) : Prop :=
  (tableNodes x.2).Nodup ∧ target ∉ tableNodes x.2 ∧ x.2.length % 2 = 1 ∧
    ∃ pre, tableNodes x.2 = pre ++ [x.1] ∧ ∀ a ∈ pre, a ∈ v

/--
C7 (confirmed).  On a path-cache miss, no table name occurs more than once
among the table-nodes of any single path returned by `find_path`: tables on
a queued path other than its final one are already visited, candidates are
enqueued only when unvisited, and the target (never enqueued) cannot occur
at an interior position.
-/
theorem C7_no_repeated_table (s : MapperState) (source target : String)
    (d : Nat) (p : List String)
    (hmiss : get_from_cache s.path_cache source target d = none)
    (hp : p ∈ (find_path s source target d).2) :
    (tableNodes p).Nodup := by
  rw [find_path] at hp
  split at hp
  · simp at hp
  split at hp
  · rw [List.mem_singleton.1 hp]
    simp [tableNodes]
  split at hp
  · rename_i entry heq
    rw [hmiss] at heq
    cases heq
  · rename_i hne _ _
    simp only [] at hp
    refine bfsLoop_forall (PathInv target) (fun q => (tableNodes q).Nodup)
      ?_ ?_ ?_ (searchFuel s) [(source, [source])] [] [] ?_ ?_ p hp
    · -- monotonicity in the visited set
      rintro v c x ⟨hnd, hnt, hodd, pre, hpre, hsub⟩
      exact ⟨hnd, hnt, hodd, pre, hpre,
        fun a ha => List.mem_cons_of_mem _ (hsub a ha)⟩
    · -- a completed path keeps its table-nodes duplicate-free
      rintro v current path ⟨hnd, hnt, hodd, pre, hpre, hsub⟩ hnv hle l n hn
      rw [tableNodes_append_pair l n path hodd]
      refine List.Nodup.append hnd (List.nodup_singleton n) ?_
      intro a ha hb
      rw [List.mem_singleton.1 hb] at ha
      rw [hn] at ha
      exact hnt ha
    · -- an enqueued entry re-establishes the invariant
      rintro v current path ⟨hnd, hnt, hodd, pre, hpre, hsub⟩ hnv hle l n hn
        hnv2 hlt
      have hnotpath : n ∉ tableNodes path := by
        rw [hpre]
        intro hmem
        rcases List.mem_append.1 hmem with h | h
        · exact hnv2 (List.mem_cons_of_mem _ (hsub n h))
        · rw [List.mem_singleton.1 h] at hnv2
          exact hnv2 (List.mem_cons_self _ _)
      have heq : tableNodes (path ++ [l, n]) = tableNodes path ++ [n] :=
        tableNodes_append_pair l n path hodd
      refine ⟨?_, ?_, ?_, tableNodes path, ?_, ?_⟩
      · rw [heq]
        refine List.Nodup.append hnd (List.nodup_singleton n) ?_
        intro a ha hb
        rw [List.mem_singleton.1 hb] at ha
        exact hnotpath ha
      · rw [heq]
        intro hmem
        rcases List.mem_append.1 hmem with h | h
        · exact hnt h
        · exact hn (List.mem_singleton.1 h).symm
      · have hodd2 : path.length % 2 = 1 := hodd
        simp only [List.length_append, List.length_cons, List.length_nil]
        omega
      · exact heq
      · intro a ha
        rw [hpre] at ha
        rcases List.mem_append.1 ha with h | h
        · exact List.mem_cons_of_mem _ (hsub a h)
        · rw [List.mem_singleton.1 h]
          exact List.mem_cons_self _ _
    · -- the initial queue entry satisfies the invariant
      intro x hx
      rw [List.mem_singleton.1 hx]
      refine ⟨?_, ?_, ?_, [], ?_, ?_⟩
      · simp [tableNodes]
      · simp only [tableNodes]
        intro hmem
        exact hne (List.mem_singleton.1 hmem).symm
      · simp
      · simp [tableNodes]
      · intro a ha
        cases ha
    · intro q hq
      cases hq

/-- Witness for `C7_no_repeated_table` at the fixture `egPath`. -/
theorem C7_no_repeated_table_witness :
    get_from_cache egPath.path_cache "A" "B" 5 = none ∧
    ["A", "--x-->y-->", "B"] ∈ (find_path egPath "A" "B" 5).2 ∧
    (tableNodes ["A", "--x-->y-->", "B"]).Nodup :=
  ⟨by decide, by decide,
    C7_no_repeated_table egPath "A" "B" 5 ["A", "--x-->y-->", "B"]
      (by decide) (by decide)⟩

/-! ### C8: out-of-scope endpoints give an empty result -/

/--
C8 (confirmed).  If the source table or the target table has no entry in
the column catalog, `find_path` returns the empty list (no exception is
modelled because the guard is the first statement of the function).
-/
theorem C8_out_of_scope_empty (s : MapperState) (source target : String)
    (d : Nat)
    (h : source ∉ s.table_columns.map Prod.fst ∨
      target ∉ s.table_columns.map Prod.fst) :
    (find_path s source target d).2 = [] := by
  rw [find_path]
  rw [if_pos]
  rcases h with h | h
  · exact Or.inl (by rw [lookup_eq_none_of_not_mem_keys h]; rfl)
  · exact Or.inr (by rw [lookup_eq_none_of_not_mem_keys h]; rfl)

/-- Witness for `C8_out_of_scope_empty`: table `C` is not in `egPath`'s
column catalog. -/
theorem C8_out_of_scope_empty_witness :
    ("C" ∉ egPath.table_columns.map Prod.fst ∨
      "B" ∉ egPath.table_columns.map Prod.fst) ∧
    (find_path egPath "C" "B" 5).2 = [] :=
  ⟨Or.inl (by decide), C8_out_of_scope_empty egPath "C" "B" 5
    (Or.inl (by decide))⟩

/-! ### C9: find_path never modifies the relationship graph -/

/--
C9 (confirmed).  `find_path` leaves `table_columns`, `relationships`,
`reverse_relationships` and `all_tables` unchanged in every branch; only
`path_cache` can change (via `_save_to_cache` on a cache miss).  Lookups
use `dict.get`, so no default entries are inserted.
-/
theorem C9_find_path_frame (s : MapperState) (source target : String)
    (d : Nat) :
    (find_path s source target d).1.table_columns = s.table_columns ∧
    (find_path s source target d).1.relationships = s.relationships ∧
    (find_path s source target d).1.reverse_relationships =
      s.reverse_relationships ∧
    (find_path s source target d).1.all_tables = s.all_tables := by
  rw [find_path]
  split
  · exact ⟨rfl, rfl, rfl, rfl⟩
  split
  · exact ⟨rfl, rfl, rfl, rfl⟩
  split
  · exact ⟨rfl, rfl, rfl, rfl⟩
  · exact ⟨rfl, rfl, rfl, rfl⟩

/-! ### C10: the path-cache key encoding is not injective -/

/-- A cache entry stored under the colliding key, used to show one query's
cached result is served for the other query. -/
def egCollisionEntry : PathCacheEntry :=
  { paths := [["a→b"]], timestamp := "", source := "a→b", target := "c",
    max_depth := 5 }

/-- A path cache holding only the colliding entry. -/
def egCollisionCache : List (String × PathCacheEntry) :=
  [(get_cache_key "a→b" "c" 5, egCollisionEntry)]

/--
C10 (confirmed).  The key `f"{source}→{target}:{max_depth}"` is not
injective: the distinct queries `("a→b", "c", 5)` and `("a", "b→c", 5)`
share the key `"a→b→c:5"`, and a cache entry saved for the first query is
returned by `_get_from_cache` for the second.
-/
theorem C10_cache_key_collision :
    get_cache_key "a→b" "c" 5 = get_cache_key "a" "b→c" 5 ∧
    (("a→b", "c", 5) : String × String × Nat) ≠ ("a", "b→c", 5) ∧
    get_from_cache egCollisionCache "a→b" "c" 5 = some egCollisionEntry ∧
    get_from_cache egCollisionCache "a" "b→c" 5 = some egCollisionEntry := by
  decide

/-! ### C3: repeated calls are served from the path cache -/

theorem guard_false_of_isSome {s : MapperState} {a b : String}
    (h1 : (s.table_columns.lookup a).isSome = true)
    (h2 : (s.table_columns.lookup b).isSome = true) :
    ¬ ((s.table_columns.lookup a).isNone = true ∨
       (s.table_columns.lookup b).isNone = true) := by
  intro h
  rcases h with h | h
  · rw [Option.isNone_iff_eq_none] at h
    rw [h] at h1
    cases h1
  · rw [Option.isNone_iff_eq_none] at h
    rw [h] at h2
    cases h2

theorem find_path_self {s : MapperState} {t : String} {d : Nat}
    (h1 : (s.table_columns.lookup t).isSome = true) :
    find_path s t t d = (s, [[t]]) := by
  rw [find_path, if_neg (guard_false_of_isSome h1 h1), if_pos rfl]

theorem find_path_cache_hit {s : MapperState} {source target : String}
    {d : Nat} {entry : PathCacheEntry}
    (h1 : (s.table_columns.lookup source).isSome = true)
    (h2 : (s.table_columns.lookup target).isSome = true)
    (hne : source ≠ target)
    (hc : get_from_cache s.path_cache source target d = some entry) :
    find_path s source target d = (s, entry.paths) := by
  rw [find_path, if_neg (guard_false_of_isSome h1 h2), if_neg hne, hc]

theorem find_path_cache_miss {s : MapperState} {source target : String}
    {d : Nat}
    (h1 : (s.table_columns.lookup source).isSome = true)
    (h2 : (s.table_columns.lookup target).isSome = true)
    (hne : source ≠ target)
    (hc : get_from_cache s.path_cache source target d = none) :
    find_path s source target d =
      (save_to_cache s source target d (runSearch s source target d),
       runSearch s source target d) := by
  rw [find_path, if_neg (guard_false_of_isSome h1 h2), if_neg hne, hc]

/--
C3 (amended).  If source and target are in scope for the first call, and
are still in scope at the second call, then a second `find_path` call whose
path cache is the one left by the first call returns exactly the first
call's result and leaves its state untouched — for ANY second graph
(`relationships`, `reverse_relationships`, `all_tables` may have changed
arbitrarily, and `table_columns` may have changed as long as it still
contains both endpoints).  The unamended claim fails because the scope
guard runs before the cache lookup: removing an endpoint from
`table_columns` between the calls changes the second result (see the
counterexample).
-/
theorem C3_cached_second_call (s s2 : MapperState) (source target : String)
    (d : Nat)
    (h1 : (s.table_columns.lookup source).isSome = true)
    (h2 : (s.table_columns.lookup target).isSome = true)
    (hpc : s2.path_cache = (find_path s source target d).1.path_cache)
    (h3 : (s2.table_columns.lookup source).isSome = true)
    (h4 : (s2.table_columns.lookup target).isSome = true) :
    (find_path s2 source target d).2 = (find_path s source target d).2 ∧
    (find_path s2 source target d).1 = s2 := by
  by_cases hne : source = target
  · subst hne
    rw [find_path_self h1, find_path_self h3]
    exact ⟨rfl, rfl⟩
  · cases hc : get_from_cache s.path_cache source target d with
    | some entry =>
      have e1 := find_path_cache_hit h1 h2 hne hc
      have hc2 : get_from_cache s2.path_cache source target d = some entry := by
        rw [get_from_cache, hpc, e1]
        exact hc
      rw [e1, find_path_cache_hit h3 h4 hne hc2]
      exact ⟨rfl, rfl⟩
    | none =>
      have e1 := find_path_cache_miss h1 h2 hne hc
      have hc2 : get_from_cache s2.path_cache source target d =
          some ({ paths := runSearch s source target d, timestamp := "",
                  source := source, target := target,
                  max_depth := d } : PathCacheEntry) := by
        rw [get_from_cache, hpc, e1]
        exact lookup_setKey _ _ _
      rw [e1, find_path_cache_hit h3 h4 hne hc2]
      exact ⟨rfl, rfl⟩

/-- The mapper state left by a first `find_path(A, B, 2)` call on `egPath`. -/
def egAfterFirst : MapperState := (find_path egPath "A" "B" 2).1

/-- The post-first-call state with the graph corrupted between the calls:
adjacency indexes and table set emptied, column catalog kept. -/
def egCorrupted : MapperState :=
  { egAfterFirst with
      relationships := []
      reverse_relationships := []
      all_tables := [] }

/-- The post-first-call state with the column catalog emptied instead. -/
def egNoCatalog : MapperState := { egAfterFirst with table_columns := [] }

/--
C3 counterexample.  After a successful `find_path("A", "B", 2)` call on
`egPath`, a second call on a state with the same path cache but with the
column catalog (part of the in-memory relationship graph) emptied returns
`[]` instead of the cached one-path result: the second result DOES depend
on the graph, because the scope guard precedes the cache lookup.
-/
theorem C3_counterexample :
    egNoCatalog.path_cache = (find_path egPath "A" "B" 2).1.path_cache ∧
    (find_path egPath "A" "B" 2).2 = [["A", "--x-->y-->", "B"]] ∧
    (find_path egNoCatalog "A" "B" 2).2 = [] := by decide

/-- Witness for `C3_cached_second_call`: the second call on the corrupted
graph still returns the first call's single path, without touching state. -/
theorem C3_cached_second_call_witness :
    ((egPath.table_columns.lookup "A").isSome = true ∧
     (egPath.table_columns.lookup "B").isSome = true ∧
     egCorrupted.path_cache = (find_path egPath "A" "B" 2).1.path_cache ∧
     (egCorrupted.table_columns.lookup "A").isSome = true ∧
     (egCorrupted.table_columns.lookup "B").isSome = true) ∧
    (find_path egCorrupted "A" "B" 2).2 = (find_path egPath "A" "B" 2).2 ∧
    (find_path egCorrupted "A" "B" 2).1 = egCorrupted :=
  ⟨⟨by decide, by decide, by decide, by decide, by decide⟩,
    C3_cached_second_call egPath egCorrupted "A" "B" 2 (by decide) (by decide)
      (by decide) (by decide) (by decide)⟩

/-! ### C4: state after a failed mapping run -/

/--
C4 (amended).  When the mapping-cache attempt fails and the run then fails
inside `get_relevant_tables` — at the connection, at the table-listing
query, or at the FK-expansion query — `map_focused_relationships` returns
`False` with the mapper state exactly as before the call.  The unamended
claim (any failure leaves the graph untouched) is false: a failure AFTER
relevant-table discovery happens after `self.all_tables` has already been
overwritten inside `get_relevant_tables` (see the counterexample).
-/
theorem C4_discovery_failure_frame (s : MapperState) (db : DbData)
    (hload : (load_from_mapping_cache s).2 = false)
    (hfail : db.connect1_ok = false ∨ db.tables_list = none ∨
      db.expand_rows = none) :
    map_focused_relationships s db = (s, false) := by
  have hgrt : get_relevant_tables s db = .error () := by
    rcases hfail with h | h | h
    · simp [get_relevant_tables, h]
    · cases hc : db.connect1_ok
      · simp [get_relevant_tables, hc]
      · simp [get_relevant_tables, hc, h]
    · cases hc : db.connect1_ok
      · simp [get_relevant_tables, hc]
      · cases ht : db.tables_list
        · simp [get_relevant_tables, hc, ht]
        · simp [get_relevant_tables, hc, ht, h]
  rw [map_focused_relationships, if_neg (by simp [hload]), hgrt]

/-- A previously successful in-memory graph about to be re-mapped. -/
def egPrev : MapperState :=
  { db_type := "postgresql", database_name := "dev", patterns := ["user"],
    relationships := [("old_user", [("old_wf", "a", "b")])],
    reverse_relationships := [("old_wf", [("old_user", "b", "a")])],
    table_columns := [("old_user", [{ name := "a", type := "int" }])],
    all_tables := ["old_user", "old_wf"], path_cache := [],
    mapping_cache := none }

/-- A database that lists one relevant table but whose second connection
(the one opened by `map_focused_relationships` after discovery) fails. -/
def egDbLateFail : DbData :=
  { connect1_ok := true, tables_list := some ["user_new"],
    expand_rows := some [], connect2_ok := false,
    fk_rows := none, col_rows := none }

/-- A database whose very first connection attempt fails. -/
def egDbDown : DbData :=
  { connect1_ok := false, tables_list := none, expand_rows := none,
    connect2_ok := false, fk_rows := none, col_rows := none }

/--
C4 counterexample.  Re-mapping `egPrev` against a database whose second
connection fails returns `False` (the run failed), yet `all_tables` has
already been replaced by the freshly discovered set `["user_new"]` — the
previous in-memory graph state was partially overwritten.
-/
theorem C4_counterexample :
    (map_focused_relationships egPrev egDbLateFail).2 = false ∧
    (map_focused_relationships egPrev egDbLateFail).1.all_tables =
      ["user_new"] ∧
    egPrev.all_tables = ["old_user", "old_wf"] := by decide

/-- Witness for `C4_discovery_failure_frame` at a concrete early failure. -/
theorem C4_discovery_failure_frame_witness :
    (load_from_mapping_cache egPrev).2 = false ∧
    (egDbDown.connect1_ok = false ∨ egDbDown.tables_list = none ∨
      egDbDown.expand_rows = none) ∧
    map_focused_relationships egPrev egDbDown = (egPrev, false) :=
  ⟨by decide, Or.inl (by decide),
    C4_discovery_failure_frame egPrev egDbDown (by decide)
      (Or.inl (by decide))⟩

/-! ### C5: mapping-cache compatibility condition -/

theorem load_from_mapping_cache_success (s : MapperState)
    (mc : MappingCacheEntry)
    (hmc : s.mapping_cache = some mc)
    (hsub : ∀ p ∈ s.patterns, p ∈ mc.patterns)
    (hdb : mc.db_info = dbFingerprint s) :
    load_from_mapping_cache s =
      ({ s with
          table_columns := mc.table_columns
          relationships := mc.relationships
          reverse_relationships := mc.reverse_relationships
          all_tables := mc.all_tables }, true) := by
  rw [load_from_mapping_cache]
  split
  · rename_i h
    rw [hmc] at h
    cases h
  · rename_i mc2 h
    rw [hmc] at h
    injection h with h
    subst h
    have hncond : ¬ ((¬ ∀ p ∈ s.patterns, p ∈ mc.patterns) ∨
        mc.db_info ≠ dbFingerprint s) := by
      intro hv
      rcases hv with hv | hv
      · exact hv hsub
      · exact hv hdb
    rw [if_neg hncond]

/--
C5 (confirmed).  `_load_from_mapping_cache` restores the cached graph and
reports success exactly when a cache entry exists, the currently requested
pattern set is a subset of the cached pattern set, and the cached database
fingerprint (database-type + "_" + database-name) matches the current one.
In particular a current pattern set that strictly contains the cached one
violates the subset condition, forcing a fresh build.
-/
theorem C5_mapping_cache_compat (s : MapperState) :
    (load_from_mapping_cache s).2 = true ↔
      ∃ mc, s.mapping_cache = some mc ∧
        (∀ p ∈ s.patterns, p ∈ mc.patterns) ∧
        mc.db_info = dbFingerprint s := by
  rw [load_from_mapping_cache]
  split
  · rename_i hmc
    simp [hmc]
  · rename_i mc hmc
    split
    · rename_i hcond
      constructor
      · intro h
        simp at h
      · rintro ⟨mc2, hmc2, hsub, hdb⟩
        rw [hmc] at hmc2
        injection hmc2 with hmc2
        subst hmc2
        rcases hcond with h | h
        · exact absurd hsub h
        · exact absurd hdb h
    · rename_i hcond
      push_neg at hcond
      constructor
      · intro _
        exact ⟨mc, hmc, hcond.1, hcond.2⟩
      · intro _
        rfl

/-! ### C6: mapping-cache round trip -/

/--
C6 (confirmed).  Saving a built graph with `_save_mapping_cache` and
restoring the resulting cache record with `_load_from_mapping_cache`, with
the same patterns and the same database fingerprint, succeeds and
reproduces the column catalog, the forward index and the reverse index
exactly (the saved record stores them verbatim, and the compatibility
check passes because `sorted(patterns)` keeps pattern membership).
-/
theorem C6_mapping_cache_roundtrip (s : MapperState) :
    (load_from_mapping_cache
      { s with mapping_cache := some (save_mapping_cache s) }).2 = true ∧
    (load_from_mapping_cache
      { s with mapping_cache := some (save_mapping_cache s) }).1.table_columns
      = s.table_columns ∧
    (load_from_mapping_cache
      { s with mapping_cache := some (save_mapping_cache s) }).1.relationships
      = s.relationships ∧
    (load_from_mapping_cache
      { s with
        mapping_cache := some (save_mapping_cache s) }).1.reverse_relationships
      = s.reverse_relationships := by
  have h := load_from_mapping_cache_success
    { s with mapping_cache := some (save_mapping_cache s) }
    (save_mapping_cache s) rfl
    (fun p hp => (mem_sortStrings p s.patterns).2 hp) rfl
  rw [h]
  exact ⟨rfl, rfl, rfl, rfl⟩
